import Mathlib

/-!
Verification of the caching and retry core of react-enhanced-suspense.

The definitions below are a shallow embedding of:
  * the cache store in src/cache/cache.ts (memoryCache, accessOrder,
    memoryExpirationMap, localStorage tier, setCache / getCache /
    deleteCache / cleanupCache / clearCache, LRU eviction loops), and
  * the retry orchestration and session resolution in
    src/hooks/use-cache.ts (usePromise's getPromiseWithRetry and
    getPromise).

Modelling conventions:
  * JS `Map` is an insertion-ordered association list `List (String × α)`
    with set / get / delete mirroring Map semantics (set keeps position
    of an existing key, appends a fresh one; iteration is list order).
  * Timestamps (`Date.now()`) are `Nat` values threaded explicitly.
  * The custom storage backend is modelled as uninstalled
    (`cache.customStorage === null`), the default configuration; the
    custom-storage calls inside setCache / deleteCache / cleanupCache /
    clearCache are then no-ops in the source and are omitted here.
  * localStorage is an association list of already-parsed entries plus an
    availability flag; `JSON.parse(JSON.stringify(entry))` is modelled as
    the identity on a `{value, expiry}` record, so stored entries always
    satisfy `isValidCacheEntry`.
  * `sizeof` (the object-sizeof import) is an arbitrary parameter
    `esize : String → CacheEntry V → Nat`; estimateCacheEntrySize clamps
    negative results to 0, hence the Nat codomain.
  * The `while` eviction loops are written with an explicit fuel argument
    `accessOrder.length + 1`; each non-breaking iteration deletes the
    returned oldest key (which is a key of accessOrder) so this fuel is
    always sufficient, which is proved below (evictEntriesLoop_fuel_eq,
    freeBytesLoop_fuel_eq).
-/

/-- JS whitespace as used by `String.prototype.trim` (the characters this
library's keys can realistically contain). -/
def jsIsSpace (c : Char) : Bool :=
  c == ' ' || c == '\t' || c == '\n' || c == '\r' || c == Char.ofNat 11 || c == Char.ofNat 12

/-- `cacheKey.trim()`. -/
def jsTrim (s : String) : String :=
  String.mk (((s.data.dropWhile jsIsSpace).reverse.dropWhile jsIsSpace).reverse)

/-- `isValidCacheKey` from cache.ts: `cacheKey && cacheKey.trim() !== ""`. -/
def isValidCacheKey (cacheKey : String) : Bool :=
  cacheKey != "" && jsTrim cacheKey != ""

/-- `isValidTTL` from cache.ts: a finite number strictly greater than 0.
A missing ttl is `none`; non-positive ttl values are modelled by
`some 0`, which is invalid just like a negative JS number. -/
def isValidTTL : Option Nat → Bool
  | none => false
  | some t => decide (0 < t)

/-- The truthiness test `entry.expiry && Date.now() > entry.expiry` used
on reads: an absent expiry and the number 0 are both falsy. -/
def isExpiredAt (expiry : Option Nat) (now : Nat) : Bool :=
  match expiry with
  | none => false
  | some e => (e != 0) && decide (now > e)

/-- Insertion-ordered association list standing for a JS `Map`. -/
abbrev AssocL (α : Type) := List (String × α)

/-- `map.get(k)`. -/
def mapGet {α : Type} (l : AssocL α) (k : String) : Option α :=
  (l.find? (fun p => p.1 == k)).map Prod.snd

/-- `map.set(k, v)`: replaces in place when the key exists, appends
otherwise. -/
def mapSet {α : Type} (l : AssocL α) (k : String) (v : α) : AssocL α :=
  if l.any (fun p => p.1 == k) then
    l.map (fun p => if p.1 == k then (p.1, v) else p)
  else
    l ++ [(k, v)]

/-- `map.delete(k)`. -/
def mapDelete {α : Type} (l : AssocL α) (k : String) : AssocL α :=
  l.filter (fun p => p.1 != k)

/-- The key list of a map, in iteration order. -/
def mapKeys {α : Type} (l : AssocL α) : List String :=
  l.map Prod.fst

/-- `CacheEntry` from cache.ts. -/
structure CacheEntry (V : Type) where
  value : V
  expiry : Option Nat
deriving DecidableEq

/-- The module-level mutable state of cache.ts (custom storage
uninstalled): the three maps, the localStorage tier, byte accounting and
the configured bounds. -/
structure CacheState (V : Type) where
  memoryCache : AssocL (CacheEntry V)
  accessOrder : AssocL Nat
  memoryExpirationMap : AssocL Nat
  localStore : AssocL (CacheEntry V)
  currentCacheBytes : Int
  maxCacheEntries : Option Nat
  maxCacheBytes : Option Int
  lsAvailable : Bool
deriving DecidableEq

/-- `CACHE_KEY_PREFIX` from cache.ts. -/
def lsKeyTag : String := "enhanced_suspense_cache_"

/-- `operateOnLocalStorage(key, "setStringified", entry)`. -/
def lsSet {V : Type} (s : CacheState V) (k : String) (e : CacheEntry V) : CacheState V :=
  if isValidCacheKey k && s.lsAvailable then
    { s with localStore := mapSet s.localStore (lsKeyTag ++ k) e }
  else s

/-- `operateOnLocalStorage(key, "remove")`. -/
def lsRemove {V : Type} (s : CacheState V) (k : String) : CacheState V :=
  if isValidCacheKey k && s.lsAvailable then
    { s with localStore := mapDelete s.localStore (lsKeyTag ++ k) }
  else s

/-- `operateOnLocalStorage(key, "getParsed")`; stored entries are already
parsed in the model, and parsing a stored `{value, expiry}` record always
yields a valid cache entry. -/
def lsGetParsed {V : Type} (s : CacheState V) (k : String) : Option (CacheEntry V) :=
  if isValidCacheKey k && s.lsAvailable then
    mapGet s.localStore (lsKeyTag ++ k)
  else none

/-- The reducer `(min, [k, t]) => (t < min[1] ? [k, t] : min)` of
`getOldestCacheKey`; `none` plays the initial `Infinity`, so the first
entry always wins against it and later entries must be strictly smaller
(ties keep the earlier entry). -/
def oldestStep (min : String × Option Nat) (kt : String × Nat) : String × Option Nat :=
  match min.2 with
  | none => (kt.1, some kt.2)
  | some m => if kt.2 < m then (kt.1, some kt.2) else min

/-- `getOldestCacheKey` from cache.ts: reduce over accessOrder starting
from `["", Infinity]`, then `oldest || undefined`. -/
def getOldestCacheKey (ao : AssocL Nat) : Option String :=
  if ao.length = 0 then none
  else
    let oldest := (ao.foldl oldestStep ("", (none : Option Nat))).1
    if oldest = "" then none else some oldest

/-- The shared eviction step: subtract the entry's size estimate and
delete the key from memoryCache, accessOrder, localStorage and
memoryExpirationMap.  This is the loop body of the two eviction loops and
also the whole default-storage branch of `deleteCache`. -/
def evictOne {V : Type} (esize : String → CacheEntry V → Nat) (s : CacheState V)
    (k : String) : CacheState V :=
  let sub : Int :=
    match mapGet s.memoryCache k with
    | some e => (esize k e : Int)
    | none => 0
  lsRemove
    { s with
      currentCacheBytes := s.currentCacheBytes - sub,
      memoryCache := mapDelete s.memoryCache k,
      accessOrder := mapDelete s.accessOrder k,
      memoryExpirationMap := mapDelete s.memoryExpirationMap k } k

/-- The `while (memoryCache.size > MAX_CACHE_ENTRIES)` loop of
`setMemoryStorage`, with fuel. -/
def evictEntriesLoop {V : Type} (esize : String → CacheEntry V → Nat) (M : Nat) :
    CacheState V → Nat → CacheState V
  | s, 0 => s
  | s, fuel + 1 =>
    if s.memoryCache.length > M then
      match getOldestCacheKey s.accessOrder with
      | none => s
      | some k => evictEntriesLoop esize M (evictOne esize s k) fuel
    else s

/-- The `while (currentCacheBytes + cacheEntrySize > MAX_CACHE_BYTES &&
memoryCache.size > 0)` loop of `freeMemory`, with fuel. -/
def freeBytesLoop {V : Type} (esize : String → CacheEntry V → Nat) (MB : Int)
    (newSize : Int) : CacheState V → Nat → CacheState V
  | s, 0 => s
  | s, fuel + 1 =>
    if s.currentCacheBytes + newSize > MB ∧ s.memoryCache.length > 0 then
      match getOldestCacheKey s.accessOrder with
      | none => s
      | some k => freeBytesLoop esize MB newSize (evictOne esize s k) fuel
    else s

/-- `freeMemory` from cache.ts: only acts when MAX_CACHE_BYTES is set;
first credits back the size of an existing entry under the key, then
evicts oldest entries while the byte bound would be exceeded. -/
def freeMemory {V : Type} (esize : String → CacheEntry V → Nat) (s : CacheState V)
    (k : String) (entrySize : Nat) : CacheState V :=
  match s.maxCacheBytes with
  | none => s
  | some MB =>
    let s1 :=
      match mapGet s.memoryCache k with
      | some e => { s with currentCacheBytes := s.currentCacheBytes - (esize k e : Int) }
      | none => s
    freeBytesLoop esize MB (entrySize : Int) s1 (s1.accessOrder.length + 1)

/-- `setMemoryStorage` from cache.ts. -/
def setMemoryStorage {V : Type} (esize : String → CacheEntry V → Nat) (s : CacheState V)
    (k : String) (e : CacheEntry V) (entrySize : Nat) (ttl : Option Nat)
    (persist : Bool) (now : Nat) : CacheState V :=
  if isValidCacheKey k then
    let s1 :=
      { s with
        memoryCache := mapSet s.memoryCache k e,
        accessOrder := mapSet s.accessOrder k now,
        currentCacheBytes := s.currentCacheBytes + (entrySize : Int) }
    let s2 :=
      if isValidTTL ttl then
        { s1 with memoryExpirationMap := mapSet s1.memoryExpirationMap k (now + ttl.getD 0) }
      else s1
    let s3 := if persist then lsSet s2 k e else s2
    match s3.maxCacheEntries with
    | none => s3
    | some M => evictEntriesLoop esize M s3 (s3.accessOrder.length + 1)
  else s

/-- `getFromMemoryStorage` from cache.ts, returning the read result
(`null` is `none`) together with the updated state. -/
def getFromMemoryStorage {V : Type} (esize : String → CacheEntry V → Nat)
    (s : CacheState V) (k : String) (now : Nat) :
    Option (CacheEntry V) × CacheState V :=
  match mapGet s.memoryCache k with
  | some e =>
    if isExpiredAt e.expiry now then
      (none, evictOne esize s k)
    else
      (some e, { s with accessOrder := mapSet s.accessOrder k now })
  | none =>
    match lsGetParsed s k with
    | some e =>
      if isExpiredAt e.expiry now then
        (none, lsRemove { s with memoryExpirationMap := mapDelete s.memoryExpirationMap k } k)
      else
        let sz := esize k e
        let s1 := freeMemory esize s k sz
        (some e,
          { s1 with
            memoryCache := mapSet s1.memoryCache k e,
            accessOrder := mapSet s1.accessOrder k now,
            currentCacheBytes := s1.currentCacheBytes + (sz : Int) })
    | none => (none, s)

/-- `setCache` from cache.ts (custom storage uninstalled, so
`cache.setCustomStorage` is a no-op). -/
def setCache {V : Type} (esize : String → CacheEntry V → Nat) (s : CacheState V)
    (k : String) (v : V) (ttl : Option Nat) (persist : Bool) (now : Nat) : CacheState V :=
  if isValidCacheKey k then
    let e : CacheEntry V :=
      { value := v, expiry := if isValidTTL ttl then some (now + ttl.getD 0) else none }
    let sz := esize k e
    let s1 := freeMemory esize s k sz
    setMemoryStorage esize s1 k e sz ttl persist now
  else s

/-- `getCache` from cache.ts (custom storage uninstalled). -/
def getCache {V : Type} (esize : String → CacheEntry V → Nat) (s : CacheState V)
    (k : String) (now : Nat) : Option (CacheEntry V) × CacheState V :=
  if isValidCacheKey k then getFromMemoryStorage esize s k now
  else (none, s)

/-- `deleteCache` from cache.ts (custom storage uninstalled): its body
coincides with the eviction step. -/
def deleteCache {V : Type} (esize : String → CacheEntry V → Nat) (s : CacheState V)
    (k : String) : CacheState V :=
  if isValidCacheKey k then evictOne esize s k
  else s

/-- The sweep over `memoryExpirationMap` in `cleanupFromMemoryStorage`
(iterating a snapshot of the map; each iteration only deletes its own
key, so this matches live JS Map iteration).  `evictOne`'s localStorage
removal is a no-op when localStorage is unavailable, which makes the two
source branches coincide on this sweep. -/
def cleanupMemorySweep {V : Type} (esize : String → CacheEntry V → Nat) :
    List (String × Nat) → CacheState V → Nat → CacheState V
  | [], s, _ => s
  | (k, ex) :: rest, s, now =>
    let s1 := if now > ex then evictOne esize s k else s
    cleanupMemorySweep esize rest s1 now

/-- The sweep over localStorage keys in `cleanupFromMemoryStorage`
(localStorage available): for each stored key carrying the cache prefix,
re-read the entry and drop it (plus its expiration bookkeeping) when
expired.  A missing/corrupt read triggers a removal attempt. -/
def cleanupLsSweep {V : Type} :
    List (String × CacheEntry V) → CacheState V → Nat → CacheState V
  | [], s, _ => s
  | (pk, _) :: rest, s, now =>
    let s1 :=
      if pk.startsWith lsKeyTag then
        let k := pk.drop lsKeyTag.length
        match lsGetParsed s k with
        | none => lsRemove s k
        | some e =>
          if isExpiredAt e.expiry now then
            lsRemove { s with memoryExpirationMap := mapDelete s.memoryExpirationMap k } k
          else s
      else s
    cleanupLsSweep rest s1 now

/-- `cleanupCache` from cache.ts: `cleanupFromCustomStorage` is a no-op
with no custom storage installed, then `cleanupFromMemoryStorage`. -/
def cleanupCache {V : Type} (esize : String → CacheEntry V → Nat) (s : CacheState V)
    (now : Nat) : CacheState V :=
  if s.lsAvailable then
    let s1 := cleanupMemorySweep esize s.memoryExpirationMap s now
    cleanupLsSweep s1.localStore s1 now
  else
    cleanupMemorySweep esize s.memoryExpirationMap s now

/-- `clearCache` from cache.ts (custom storage uninstalled): optionally
remove the localStorage mirror of every in-memory key, then clear the
three maps and reset the byte counter. -/
def clearCache {V : Type} (s : CacheState V) (clearLocalStorage : Bool) : CacheState V :=
  let s1 :=
    if clearLocalStorage && s.lsAvailable then
      s.memoryCache.foldl (fun acc p => lsRemove acc p.1) s
    else s
  { s1 with
    memoryCache := [], accessOrder := [], memoryExpirationMap := [],
    currentCacheBytes := 0 }

/-- The empty cache state with the given bounds. -/
def emptyState (V : Type) (maxE : Option Nat) (maxB : Option Int) (lsAvail : Bool) :
    CacheState V :=
  { memoryCache := [], accessOrder := [], memoryExpirationMap := [], localStore := [],
    currentCacheBytes := 0, maxCacheEntries := maxE, maxCacheBytes := maxB,
    lsAvailable := lsAvail }

/-!
The retry orchestration of `usePromise` (src/hooks/use-cache.ts,
`getPromiseWithRetry`).

The supplier `resource` is a function from the invocation index to its
result for that invocation.  The `isCancelled.value` flag captured by one
run of the loop only ever flips from false to true, and the loop reads it
at fixed points: at attempt `i` the read guarding `setAttempt` is read
number `2*i`, and the read performed after `await resource()` settles
(the success check, or the one at the top of `catch`) is read number
`2*i + 1`.  A cancellation schedule is therefore a function
`cancel : Nat → Bool` from read numbers to the flag's value, monotone for
schedules realisable by a single false→true flip.

The run record collects the observable effects of one call to
`getPromiseWithRetry`:
  * `outcome`: the settlement of the returned promise; `Except.ok none`
    models resolution with `undefined as T` (the cancelled-failure path),
    `Except.ok (some v)` resolution with a supplier value, and
    `Except.error e` rejection;
  * `invocations`: how many times `resource()` was invoked;
  * `reported`: the arguments of the `setAttempt` calls, in order;
  * `cacheWrites`: the `setCache(cacheKey, result, ...)` calls, as
    (attempt index, value) pairs;
  * `waits`: the delays actually awaited via `setTimeout` (the computed
    delay is skipped when not positive).
-/

/-- `BackoffStrategy` from src/types/types.ts:
`"exponential" | "linear" | ((attempt, retryDelay) => number)`.  A fixed
backoff is the absence of a strategy (`retryBackoff` undefined), handled
by the final `else` of the delay computation. -/
inductive Backoff where
  | linear
  | exponential
  | custom (f : Nat → Int → Int)

/-- The inter-attempt delay computation in `getPromiseWithRetry`
(src/hooks/use-cache.ts lines 147-154). -/
def computeDelay (retryBackoff : Option Backoff) (retryDelay : Int) (attempts : Nat) : Int :=
  match retryBackoff with
  | some Backoff.exponential => retryDelay * 2 ^ attempts
  | some Backoff.linear => retryDelay * ((attempts : Int) + 1)
  | some (Backoff.custom f) => f attempts retryDelay
  | none => retryDelay

deriving instance DecidableEq for Except

/-- The observable effects of one `getPromiseWithRetry` run. -/
structure RetryRun (V E : Type) where
  outcome : Except E (Option V)
  invocations : Nat
  reported : List Nat
  cacheWrites : List (Nat × V)
  waits : List Int
deriving DecidableEq

/-- The `while (attempts <= retryCount)` loop of `getPromiseWithRetry`.
`remaining = retryCount - attempts` counts the retries still allowed, so
the `attempts < retryCount` test in `catch` is `remaining > 0`; the two
equations share the attempt body and differ only in that `catch` throws
when no retries remain.  The trailing
`throw new Error("This should never happen")` is unreachable: the loop
body always returns or throws at `remaining = 0`. -/
def retryLoop {V E : Type} (sup : Nat → Except E V) (retryBackoff : Option Backoff)
    (retryDelay : Int) (hasCacheKey : Bool) (cancel : Nat → Bool) :
    Nat → Nat → RetryRun V E
  | attempts, 0 =>
    let reported0 : List Nat := if cancel (2 * attempts) then [] else [attempts]
    match sup attempts with
    | Except.ok v =>
      if cancel (2 * attempts + 1) then
        { outcome := Except.ok (some v), invocations := 1, reported := reported0,
          cacheWrites := [], waits := [] }
      else
        { outcome := Except.ok (some v), invocations := 1, reported := reported0,
          cacheWrites := if hasCacheKey then [(attempts, v)] else [], waits := [] }
    | Except.error err =>
      if cancel (2 * attempts + 1) then
        { outcome := Except.ok none, invocations := 1, reported := reported0,
          cacheWrites := [], waits := [] }
      else
        { outcome := Except.error err, invocations := 1, reported := reported0,
          cacheWrites := [], waits := [] }
  | attempts, r + 1 =>
    let reported0 : List Nat := if cancel (2 * attempts) then [] else [attempts]
    match sup attempts with
    | Except.ok v =>
      if cancel (2 * attempts + 1) then
        { outcome := Except.ok (some v), invocations := 1, reported := reported0,
          cacheWrites := [], waits := [] }
      else
        { outcome := Except.ok (some v), invocations := 1, reported := reported0,
          cacheWrites := if hasCacheKey then [(attempts, v)] else [], waits := [] }
    | Except.error _ =>
      if cancel (2 * attempts + 1) then
        { outcome := Except.ok none, invocations := 1, reported := reported0,
          cacheWrites := [], waits := [] }
      else
        let d := computeDelay retryBackoff retryDelay attempts
        let rest := retryLoop sup retryBackoff retryDelay hasCacheKey cancel (attempts + 1) r
        { outcome := rest.outcome, invocations := 1 + rest.invocations,
          reported := reported0 ++ rest.reported,
          cacheWrites := rest.cacheWrites,
          waits := (if 0 < d then [d] else []) ++ rest.waits }

/-- One call to `getPromiseWithRetry`: the loop starting at attempt 0
with `retryCount` retries allowed. -/
def runRetry {V E : Type} (sup : Nat → Except E V) (retryCount : Nat)
    (retryBackoff : Option Backoff) (retryDelay : Int) (hasCacheKey : Bool)
    (cancel : Nat → Bool) : RetryRun V E :=
  retryLoop sup retryBackoff retryDelay hasCacheKey cancel 0 retryCount

/-- A cancellation schedule produced by a single false→true flip of
`isCancelled.value`. -/
def MonoCancel (cancel : Nat → Bool) : Prop :=
  ∀ m n : Nat, m ≤ n → cancel m = true → cancel n = true

/-- The schedule that never cancels. -/
def noCancel : Nat → Bool := fun _ => false

/-!
The session resolution step `getPromise` of `usePromise`
(src/hooks/use-cache.ts lines 169-211), modelled as a pure function of
the state captured by the render that created the closure.  State setter
calls (`setCurrentPromise`, `setCacheEntry`) do not change what the
current call reads; they are collected into the `next*` fields.
-/

/-- A cache entry as seen by `getPromise`: the value of
`getCache(cacheKey)`, which for a custom storage backend may carry an
`isValid()` method (`isValidM` is its return value when present). -/
structure EntryLike (V : Type) where
  value : V
  expiry : Option Nat
  isValidM : Option Bool
deriving DecidableEq

/-- `cacheEntry.isValid ? cacheEntry.isValid() : (cacheEntry.expiry ===
undefined || Date.now() <= cacheEntry.expiry)`. -/
def entryLikeValid {V : Type} (e : EntryLike V) (now : Nat) : Bool :=
  match e.isValidM with
  | some b => b
  | none =>
    match e.expiry with
    | none => true
    | some x => decide (now ≤ x)

/-- The promise-valued expressions `getPromise` can return:
a previously tracked promise (opaque, `external`), the immediately
resolved `Promise.resolve(cacheEntry.value)`, a fresh
`getPromiseWithRetry()` run, a fresh `resource().then(...)` chain that
writes the cache, or a bare `resource()` call. -/
inductive PromiseD (V : Type) where
  | external (n : Nat)
  | cachedResolved (v : V)
  | retryRun
  | fetchCached
  | fetchPlain
deriving DecidableEq

/-- The per-render state `getPromise` closes over: `cacheKey`
(`cache ? resourceId : undefined`), the `cacheEntry` state, the tracked
`currentPromise` state, and the `attempt` counter state. -/
structure SessionState (V : Type) where
  cacheKey : Option String
  cacheEntry : Option (EntryLike V)
  currentPromise : Option (PromiseD V)
  attempt : Nat
deriving DecidableEq

/-- What one `usePromise` render emits: the promise returned by
`getPromise()`, the queued `currentPromise` and `cacheEntry` state after
the call, whether `resource()` was invoked by this call (directly or via
a fresh retry run), and the attempt count returned alongside the promise
(`return [getPromise(), attempt]`; `getPromise` itself never calls
`setAttempt`). -/
structure ResolveResult (V : Type) where
  promise : PromiseD V
  nextPromise : Option (PromiseD V)
  nextEntry : Option (EntryLike V)
  supplierStarted : Bool
  reportedAttempt : Nat
deriving DecidableEq

/-- `getPromise` from `usePromise`.  In the expired-entry branch the
source calls `setCurrentPromise(undefined)` and `setCacheEntry(null)` and
then falls through to `if (currentPromise) return currentPromise`, which
still reads the render-captured value. -/
def getPromiseDef {V : Type} (s : SessionState V) (useRetry : Bool) (now : Nat) :
    ResolveResult V :=
  match s.cacheKey, s.cacheEntry with
  | some _, some e =>
    if entryLikeValid e now then
      match s.currentPromise with
      | some p =>
        { promise := p, nextPromise := some p, nextEntry := some e,
          supplierStarted := false, reportedAttempt := s.attempt }
      | none =>
        let pr := PromiseD.cachedResolved e.value
        { promise := pr, nextPromise := some pr, nextEntry := some e,
          supplierStarted := false, reportedAttempt := s.attempt }
    else
      match s.currentPromise with
      | some p =>
        { promise := p, nextPromise := none, nextEntry := none,
          supplierStarted := false, reportedAttempt := s.attempt }
      | none =>
        let pr := if useRetry then PromiseD.retryRun else PromiseD.fetchCached
        { promise := pr, nextPromise := some pr, nextEntry := none,
          supplierStarted := true, reportedAttempt := s.attempt }
  | _, _ =>
    match s.currentPromise with
    | some p =>
      { promise := p, nextPromise := some p, nextEntry := s.cacheEntry,
        supplierStarted := false, reportedAttempt := s.attempt }
    | none =>
      let pr :=
        if useRetry then PromiseD.retryRun
        else
          match s.cacheKey with
          | some _ => PromiseD.fetchCached
          | none => PromiseD.fetchPlain
      { promise := pr, nextPromise := some pr, nextEntry := s.cacheEntry,
        supplierStarted := true, reportedAttempt := s.attempt }

/-!
Concrete instances used by witnesses and counterexamples.
-/

/-- A size estimator assigning 0 bytes to every entry (the estimator is
irrelevant to the properties below). -/
def eszNat : String → CacheEntry Nat → Nat := fun _ _ => 0

/-- A supplier that fails on its first two invocations and succeeds with
42 on the third. -/
def supTwiceFail : Nat → Except Unit Nat :=
  fun i => if i < 2 then Except.error () else Except.ok 42

/-- A supplier that fails on every invocation. -/
def supAlwaysFail : Nat → Except Unit Nat := fun _ => Except.error ()

/-- The cancellation schedule that reads true from read index 1 on
(cancelled while attempt 0 is in flight). -/
def cancelFromOne : Nat → Bool := fun n => decide (1 ≤ n)

/-- The cancellation schedule that reads true from read index 2 on
(cancelled after attempt 0 failed, during the backoff wait before
attempt 1). -/
def cancelFromTwo : Nat → Bool := fun n => decide (2 ≤ n)

/-- The session state reached after a retried success with caching on:
the cache holds a valid entry for the key, a promise from the retry run
is still tracked, and the attempt counter holds the final attempt index
(1, after one failure and one success). -/
def sessionAfterRetry : SessionState Nat :=
  { cacheKey := some ("k"), cacheEntry := some { value := 7, expiry := none, isValidM := none },
    currentPromise := some (PromiseD.external 0), attempt := 1 }

/-- The invariant of C9: the access-order map holds exactly the same set
of keys as the in-memory entry map. -/
def SameKeys {V : Type} (s : CacheState V) : Prop :=
  ∀ a : String, a ∈ mapKeys s.memoryCache ↔ a ∈ mapKeys s.accessOrder

/-- Inserting the keyed values `(kf 0, vf 0) ... (kf (m-1), vf (m-1))`
in order, the i-th at time `tf i`, without ttl or persistence. -/
def insertSeq {V : Type} (esize : String → CacheEntry V → Nat) (kf : Nat → String)
    (vf : Nat → V) (tf : Nat → Nat) (s : CacheState V) : Nat → CacheState V
  | 0 => s
  | m + 1 => setCache esize (insertSeq esize kf vf tf s m) (kf m) (vf m) none false (tf m)

/-- Keys "a", "b", "c" for the C6 witness scenario. -/
def kf3 : Nat → String := fun i => if i = 0 then ("a") else if i = 1 then ("b") else ("c")

/-!
Auxiliary lemmas about the Map model.
-/

theorem mapSet_cons_of_ne {α : Type} (p : String × α) (t : AssocL α) (k : String) (v : α)
    (hp : (p.1 == k) = false) : mapSet (p :: t) k v = p :: mapSet t k v := by
  unfold mapSet
  simp only [List.any_cons, hp, Bool.false_or, List.map_cons, List.cons_append]
  split <;> simp [hp]

theorem mapGet_cons_of_ne {α : Type} (p : String × α) (t : AssocL α) (k : String)
    (hp : (p.1 == k) = false) : mapGet (p :: t) k = mapGet t k := by
  simp [mapGet, List.find?_cons, hp]

theorem mapGet_mapSet_self {α : Type} (l : AssocL α) (k : String) (v : α) :
    mapGet (mapSet l k v) k = some v := by
  induction l with
  | nil => simp [mapSet, mapGet]
  | cons p t ih =>
    by_cases hp : (p.1 == k) = true
    · simp only [mapSet, List.any_cons, hp, Bool.true_or, if_true, List.map_cons, hp, if_pos]
      simp [mapGet, List.find?_cons, hp]
    · rw [mapSet_cons_of_ne p t k v (by simpa using hp),
        mapGet_cons_of_ne p (mapSet t k v) k (by simpa using hp)]
      exact ih

theorem mapKeys_mapSet_of_mem {α : Type} (l : AssocL α) (k : String) (v : α)
    (h : l.any (fun p => p.1 == k) = true) : mapKeys (mapSet l k v) = mapKeys l := by
  simp only [mapSet, h, if_true, mapKeys, List.map_map]
  apply List.map_congr_left
  intro p _
  simp only [Function.comp_apply]
  split <;> rfl

theorem mem_mapKeys_mapSet {α : Type} (l : AssocL α) (k : String) (v : α) (a : String) :
    a ∈ mapKeys (mapSet l k v) ↔ a = k ∨ a ∈ mapKeys l := by
  by_cases h : l.any (fun p => p.1 == k) = true
  · rw [mapKeys_mapSet_of_mem l k v h]
    constructor
    · exact Or.inr
    · rintro (rfl | ha)
      · rcases List.any_eq_true.mp h with ⟨p, hp, hpk⟩
        exact List.mem_map.mpr ⟨p, hp, by simpa using hpk⟩
      · exact ha
  · have : mapSet l k v = l ++ [(k, v)] := by simp [mapSet, h]
    rw [this]
    simp [mapKeys, or_comm]

theorem mem_mapKeys_mapDelete {α : Type} (l : AssocL α) (k : String) (a : String) :
    a ∈ mapKeys (mapDelete l k) ↔ a ∈ mapKeys l ∧ a ≠ k := by
  simp only [mapKeys, mapDelete, List.mem_map, List.mem_filter]
  constructor
  · rintro ⟨p, ⟨hp, hne⟩, rfl⟩
    exact ⟨⟨p, hp, rfl⟩, by simpa using hne⟩
  · rintro ⟨⟨p, hp, rfl⟩, hne⟩
    exact ⟨p, ⟨hp, by simpa using hne⟩, rfl⟩

theorem mem_mapKeys_of_mapGet {α : Type} (l : AssocL α) (k : String) (v : α)
    (h : mapGet l k = some v) : k ∈ mapKeys l := by
  rcases hf : l.find? (fun p => p.1 == k) with _ | p
  · simp [mapGet, hf] at h
  · have hp := List.mem_of_find?_eq_some hf
    have hk := List.find?_some hf
    exact List.mem_map.mpr ⟨p, hp, by simpa using hk⟩

theorem mapDelete_length_lt {α : Type} (l : AssocL α) (k : String)
    (h : k ∈ mapKeys l) : (mapDelete l k).length < l.length := by
  rcases List.mem_map.mp h with ⟨p, hp, rfl⟩
  unfold mapDelete
  refine List.length_filter_lt_length_iff_exists.mpr ?_
  exact ⟨p, hp, by simp⟩

theorem mapDelete_of_not_mem {α : Type} (l : AssocL α) (k : String)
    (h : ∀ p ∈ l, p.1 ≠ k) : mapDelete l k = l := by
  unfold mapDelete
  apply List.filter_eq_self.mpr
  intro p hp
  simpa using h p hp

theorem oldestStep_cases (acc : String × Option Nat) (q : String × Nat) :
    oldestStep acc q = acc ∨ oldestStep acc q = (q.1, some q.2) := by
  unfold oldestStep
  rcases acc with ⟨ak, _ | am⟩
  · exact Or.inr rfl
  · by_cases h : q.2 < am <;> simp [h]

theorem foldl_oldestStep_cases (l : AssocL Nat) :
    ∀ acc : String × Option Nat,
      l.foldl oldestStep acc = acc ∨ ∃ p ∈ l, l.foldl oldestStep acc = (p.1, some p.2) := by
  induction l with
  | nil => intro acc; exact Or.inl rfl
  | cons q t ih =>
    intro acc
    rw [List.foldl_cons]
    rcases ih (oldestStep acc q) with h | ⟨p, hp, h⟩
    · rw [h]
      rcases oldestStep_cases acc q with h2 | h2
      · exact Or.inl h2
      · exact Or.inr ⟨q, List.mem_cons_self q t, h2⟩
    · exact Or.inr ⟨p, List.mem_cons_of_mem q hp, h⟩

theorem getOldestCacheKey_mem (ao : AssocL Nat) (k : String)
    (h : getOldestCacheKey ao = some k) : k ∈ mapKeys ao := by
  unfold getOldestCacheKey at h
  by_cases hlen : ao.length = 0
  · simp [hlen] at h
  · simp only [hlen, if_false] at h
    rcases foldl_oldestStep_cases ao ("", (none : Option Nat)) with hf | ⟨p, hp, hf⟩
    · rw [hf] at h
      simp at h
    · rw [hf] at h
      by_cases hk0 : p.1 = ""
      · simp [hk0] at h
      · simp only [hk0, if_false, Option.some.injEq] at h
        exact List.mem_map.mpr ⟨p, hp, h⟩

theorem foldl_oldestStep_keep (l : AssocL Nat) (k : String) (t : Nat)
    (h : ∀ p ∈ l, ¬ p.2 < t) : l.foldl oldestStep (k, some t) = (k, some t) := by
  induction l with
  | nil => rfl
  | cons q rest ih =>
    rw [List.foldl_cons]
    have hq : oldestStep (k, some t) q = (k, some t) := by
      unfold oldestStep
      simp [h q (List.mem_cons_self q rest)]
    rw [hq]
    exact ih (fun p hp => h p (List.mem_cons_of_mem q hp))

theorem getOldestCacheKey_head (k : String) (t : Nat) (rest : AssocL Nat)
    (hk : k ≠ "") (h : ∀ p ∈ rest, ¬ p.2 < t) :
    getOldestCacheKey ((k, t) :: rest) = some k := by
  unfold getOldestCacheKey
  have h1 : ((k, t) :: rest).foldl oldestStep ("", (none : Option Nat)) = (k, some t) := by
    rw [List.foldl_cons]
    have : oldestStep ("", (none : Option Nat)) (k, t) = (k, some t) := rfl
    rw [this]
    exact foldl_oldestStep_keep rest k t h
  simp [h1, hk]

/-!
Projection lemmas: the localStorage helpers only touch `localStore`, and
the eviction step deletes the key from the three maps.
-/

@[simp] theorem lsRemove_memoryCache {V : Type} (s : CacheState V) (k : String) :
    (lsRemove s k).memoryCache = s.memoryCache := by
  unfold lsRemove; split <;> rfl

@[simp] theorem lsRemove_accessOrder {V : Type} (s : CacheState V) (k : String) :
    (lsRemove s k).accessOrder = s.accessOrder := by
  unfold lsRemove; split <;> rfl

@[simp] theorem lsRemove_memoryExpirationMap {V : Type} (s : CacheState V) (k : String) :
    (lsRemove s k).memoryExpirationMap = s.memoryExpirationMap := by
  unfold lsRemove; split <;> rfl

@[simp] theorem lsRemove_currentCacheBytes {V : Type} (s : CacheState V) (k : String) :
    (lsRemove s k).currentCacheBytes = s.currentCacheBytes := by
  unfold lsRemove; split <;> rfl

@[simp] theorem lsRemove_maxCacheEntries {V : Type} (s : CacheState V) (k : String) :
    (lsRemove s k).maxCacheEntries = s.maxCacheEntries := by
  unfold lsRemove; split <;> rfl

@[simp] theorem lsRemove_maxCacheBytes {V : Type} (s : CacheState V) (k : String) :
    (lsRemove s k).maxCacheBytes = s.maxCacheBytes := by
  unfold lsRemove; split <;> rfl

@[simp] theorem lsRemove_lsAvailable {V : Type} (s : CacheState V) (k : String) :
    (lsRemove s k).lsAvailable = s.lsAvailable := by
  unfold lsRemove; split <;> rfl

@[simp] theorem lsSet_memoryCache {V : Type} (s : CacheState V) (k : String) (e : CacheEntry V) :
    (lsSet s k e).memoryCache = s.memoryCache := by
  unfold lsSet; split <;> rfl

@[simp] theorem lsSet_accessOrder {V : Type} (s : CacheState V) (k : String) (e : CacheEntry V) :
    (lsSet s k e).accessOrder = s.accessOrder := by
  unfold lsSet; split <;> rfl

@[simp] theorem lsSet_memoryExpirationMap {V : Type} (s : CacheState V) (k : String)
    (e : CacheEntry V) : (lsSet s k e).memoryExpirationMap = s.memoryExpirationMap := by
  unfold lsSet; split <;> rfl

@[simp] theorem lsSet_currentCacheBytes {V : Type} (s : CacheState V) (k : String)
    (e : CacheEntry V) : (lsSet s k e).currentCacheBytes = s.currentCacheBytes := by
  unfold lsSet; split <;> rfl

@[simp] theorem lsSet_maxCacheEntries {V : Type} (s : CacheState V) (k : String)
    (e : CacheEntry V) : (lsSet s k e).maxCacheEntries = s.maxCacheEntries := by
  unfold lsSet; split <;> rfl

@[simp] theorem lsSet_maxCacheBytes {V : Type} (s : CacheState V) (k : String)
    (e : CacheEntry V) : (lsSet s k e).maxCacheBytes = s.maxCacheBytes := by
  unfold lsSet; split <;> rfl

@[simp] theorem lsSet_lsAvailable {V : Type} (s : CacheState V) (k : String) (e : CacheEntry V) :
    (lsSet s k e).lsAvailable = s.lsAvailable := by
  unfold lsSet; split <;> rfl

@[simp] theorem evictOne_memoryCache {V : Type} (esize : String → CacheEntry V → Nat)
    (s : CacheState V) (k : String) :
    (evictOne esize s k).memoryCache = mapDelete s.memoryCache k := by
  unfold evictOne; simp

@[simp] theorem evictOne_accessOrder {V : Type} (esize : String → CacheEntry V → Nat)
    (s : CacheState V) (k : String) :
    (evictOne esize s k).accessOrder = mapDelete s.accessOrder k := by
  unfold evictOne; simp

@[simp] theorem evictOne_memoryExpirationMap {V : Type} (esize : String → CacheEntry V → Nat)
    (s : CacheState V) (k : String) :
    (evictOne esize s k).memoryExpirationMap = mapDelete s.memoryExpirationMap k := by
  unfold evictOne; simp

@[simp] theorem evictOne_maxCacheEntries {V : Type} (esize : String → CacheEntry V → Nat)
    (s : CacheState V) (k : String) :
    (evictOne esize s k).maxCacheEntries = s.maxCacheEntries := by
  unfold evictOne; simp

@[simp] theorem evictOne_maxCacheBytes {V : Type} (esize : String → CacheEntry V → Nat)
    (s : CacheState V) (k : String) :
    (evictOne esize s k).maxCacheBytes = s.maxCacheBytes := by
  unfold evictOne; simp

@[simp] theorem evictOne_lsAvailable {V : Type} (esize : String → CacheEntry V → Nat)
    (s : CacheState V) (k : String) :
    (evictOne esize s k).lsAvailable = s.lsAvailable := by
  unfold evictOne; simp

/-!
Invalid keys: empty or whitespace-only strings fail `isValidCacheKey`.
-/

theorem jsTrim_of_all_space (k : String) (h : ∀ c ∈ k.data, jsIsSpace c = true) :
    jsTrim k = "" := by
  unfold jsTrim
  have h1 : k.data.dropWhile jsIsSpace = [] := List.dropWhile_eq_nil_iff.mpr h
  rw [h1]
  rfl

theorem isValidCacheKey_eq_false (k : String)
    (h : k = "" ∨ ∀ c ∈ k.data, jsIsSpace c = true) : isValidCacheKey k = false := by
  rcases h with rfl | h
  · rfl
  · unfold isValidCacheKey
    rw [jsTrim_of_all_space k h]
    simp

/-- C8.  For every empty or whitespace-only cache key, `setCache`,
`getCache` and `deleteCache` are no-ops: the state (memory map, access
order, expiration bookkeeping, byte accounting, localStorage tier) is
returned unchanged and `getCache` returns absent. -/
theorem claim8_theorem {V : Type} (esize : String → CacheEntry V → Nat)
    (s : CacheState V) (k : String) (v : V) (ttl : Option Nat) (persist : Bool)
    (now now2 : Nat) (hk : k = "" ∨ ∀ c ∈ k.data, jsIsSpace c = true) :
    setCache esize s k v ttl persist now = s ∧
    getCache esize s k now2 = (none, s) ∧
    deleteCache esize s k = s := by
  have hval : isValidCacheKey k = false := isValidCacheKey_eq_false k hk
  refine ⟨?_, ?_, ?_⟩ <;> simp [setCache, getCache, deleteCache, hval]

/-- Witness for C8 at the whitespace-only key made of two spaces. -/
theorem claim8_witness :
    setCache eszNat (emptyState Nat none none true) ("  ") 0 none false 0
      = emptyState Nat none none true ∧
    getCache eszNat (emptyState Nat none none true) ("  ") 7
      = (none, emptyState Nat none none true) ∧
    deleteCache eszNat (emptyState Nat none none true) ("  ")
      = emptyState Nat none none true := by
  exact claim8_theorem eszNat (emptyState Nat none none true) ("  ") 0 none false 0 7
    (Or.inr (by decide))

/-!
Retry-loop lemmas.
-/

theorem retryLoop_waits {V E : Type} (sup : Nat → Except E V) (b : Option Backoff)
    (d : Int) (hk : Bool) (cancel : Nat → Bool) :
    ∀ (remaining attempts : Nat) (w : Int),
      w ∈ (retryLoop sup b d hk cancel attempts remaining).waits →
      0 < w ∧ ∃ i : Nat, w = computeDelay b d i := by
  intro remaining
  induction remaining with
  | zero =>
    intro attempts w hw
    rcases hsup : sup attempts with err | v <;>
      simp only [retryLoop, hsup] at hw <;>
      split at hw <;> simp at hw
  | succ r ih =>
    intro attempts w hw
    rcases hsup : sup attempts with err | v
    · simp only [retryLoop, hsup] at hw
      split at hw
      · simp at hw
      · simp only [List.mem_append] at hw
        rcases hw with hw | hw
        · split at hw
          · rename_i hpos
            rcases List.mem_singleton.mp hw with rfl
            exact ⟨hpos, attempts, rfl⟩
          · simp at hw
        · exact ih (attempts + 1) w hw
    · simp only [retryLoop, hsup] at hw
      split at hw <;> simp at hw

/-- C5.  The computed inter-attempt wait is `retryDelay` when the backoff
strategy is absent (fixed), `retryDelay * (attempt+1)` for linear,
`retryDelay * 2^attempt` for exponential, `backoffFn(attempt, retryDelay)`
for a custom function; and the wait is skipped entirely when the computed
value is not positive: every delay that is actually awaited in a retry
run is positive and equals the computed delay of some attempt. -/
theorem claim5_theorem (d : Int) (a : Nat) (f : Nat → Int → Int) :
    computeDelay none d a = d ∧
    computeDelay (some Backoff.linear) d a = d * ((a : Int) + 1) ∧
    computeDelay (some Backoff.exponential) d a = d * 2 ^ a ∧
    computeDelay (some (Backoff.custom f)) d a = f a d ∧
    (∀ (V E : Type) (sup : Nat → Except E V) (count : Nat) (b : Option Backoff)
      (hk : Bool) (cancel : Nat → Bool) (w : Int),
        w ∈ (runRetry sup count b d hk cancel).waits →
        0 < w ∧ ∃ i : Nat, w = computeDelay b d i) := by
  refine ⟨rfl, rfl, rfl, rfl, ?_⟩
  intro V E sup count b hk cancel w hw
  exact retryLoop_waits sup b d hk cancel count 0 w hw

/-- Witness for C5: exponential backoff with retryDelay 100 actually
awaits the wait 100 = 100 * 2^0, which is positive. -/
theorem claim5_witness :
    0 < (100 : Int) ∧ ∃ i : Nat, (100 : Int) = computeDelay (some Backoff.exponential) 100 i := by
  exact (claim5_theorem 100 0 (fun _ d => d)).2.2.2.2 Nat Unit supAlwaysFail 2
    (some Backoff.exponential) false noCancel 100 (by decide)

theorem retryLoop_early_success {V E : Type} (sup : Nat → Except E V) (b : Option Backoff)
    (d : Int) (hk : Bool) (v : V) :
    ∀ (a r start : Nat), a ≤ r →
      (∀ i, i < a → ∃ e, sup (start + i) = Except.error e) →
      sup (start + a) = Except.ok v →
      (retryLoop sup b d hk noCancel start r).outcome = Except.ok (some v) ∧
      (retryLoop sup b d hk noCancel start r).invocations = a + 1 ∧
      (retryLoop sup b d hk noCancel start r).reported = List.range' start (a + 1) := by
  intro a
  induction a with
  | zero =>
    intro r start _ _ hok
    rw [Nat.add_zero] at hok
    cases r <;> simp [retryLoop, hok, noCancel, List.range'_one]
  | succ a ih =>
    intro r start har hfail hok
    rcases hfail 0 (Nat.succ_pos a) with ⟨e, he⟩
    rw [Nat.add_zero] at he
    cases r with
    | zero => omega
    | succ rp =>
      have ha2 : a ≤ rp := by omega
      have hfail2 : ∀ i, i < a → ∃ e2, sup (start + 1 + i) = Except.error e2 := by
        intro i hi
        rcases hfail (i + 1) (by omega) with ⟨e2, he2⟩
        exact ⟨e2, by rw [show start + 1 + i = start + (i + 1) by omega]; exact he2⟩
      have hok2 : sup (start + 1 + a) = Except.ok v := by
        rw [show start + 1 + a = start + (a + 1) by omega]
        exact hok
      rcases ih rp (start + 1) ha2 hfail2 hok2 with ⟨h1, h2, h3⟩
      refine ⟨?_, ?_, ?_⟩ <;>
        simp [retryLoop, he, noCancel, h1, h2, h3, List.range'_succ] <;> omega

/-- C2.  With retry enabled and the cancellation flag never set, if the
supplier fails on every invocation before attempt `a` and succeeds at
attempt `a ≤ retryCount`, the loop invokes the supplier exactly `a + 1`
times, reports the attempt sequence 0, 1, ..., a (one `setAttempt` at the
start of each attempt), and the pending result resolves with that
attempt's success value — any successful attempt terminates the loop
immediately.  The claim's scenario is `a = 2`, `retryCount = 2`. -/
theorem claim2_theorem {V E : Type} (sup : Nat → Except E V) (retryCount : Nat)
    (b : Option Backoff) (d : Int) (hk : Bool) (a : Nat) (v : V)
    (ha : a ≤ retryCount) (hfail : ∀ i, i < a → ∃ e, sup i = Except.error e)
    (hok : sup a = Except.ok v) :
    (runRetry sup retryCount b d hk noCancel).outcome = Except.ok (some v) ∧
    (runRetry sup retryCount b d hk noCancel).invocations = a + 1 ∧
    (runRetry sup retryCount b d hk noCancel).reported = List.range (a + 1) := by
  have hfail0 : ∀ i, i < a → ∃ e, sup (0 + i) = Except.error e := by
    intro i hi
    rw [Nat.zero_add]
    exact hfail i hi
  have hok0 : sup (0 + a) = Except.ok v := by rw [Nat.zero_add]; exact hok
  rcases retryLoop_early_success sup b d hk v a retryCount 0 ha hfail0 hok0 with ⟨h1, h2, h3⟩
  exact ⟨h1, h2, by rw [runRetry, h3, List.range_eq_range']⟩

/-- Witness for C2: the claim's scenario — supplier fails twice then
succeeds with 42, retryCount 2 — gives 3 invocations, attempt sequence
[0, 1, 2] and resolution with 42. -/
theorem claim2_witness :
    (runRetry supTwiceFail 2 none 0 false noCancel).outcome = Except.ok (some 42) ∧
    (runRetry supTwiceFail 2 none 0 false noCancel).invocations = 3 ∧
    (runRetry supTwiceFail 2 none 0 false noCancel).reported = [0, 1, 2] := by
  have h := claim2_theorem supTwiceFail 2 none 0 false 2 42 (by decide)
    (fun i hi => ⟨(), by simp [supTwiceFail, hi]⟩) (by decide)
  exact ⟨h.1, h.2.1, by rw [h.2.2]; rfl⟩

theorem retryLoop_error_last_read {V E : Type} (sup : Nat → Except E V) (b : Option Backoff)
    (d : Int) (hk : Bool) (cancel : Nat → Bool) (e : E) :
    ∀ (r start : Nat),
      (retryLoop sup b d hk cancel start r).outcome = Except.error e →
      cancel (2 * (start + r) + 1) = false := by
  intro r
  induction r with
  | zero =>
    intro start h
    rcases hsup : sup start with err | v <;> simp only [retryLoop, hsup] at h <;>
      split at h <;> simp_all
  | succ rp ih =>
    intro start h
    rcases hsup : sup start with err | v
    · simp only [retryLoop, hsup] at h
      split at h
      · simp at h
      · have := ih (start + 1) h
        rw [show start + 1 + rp = start + (rp + 1) by omega] at this
        exact this
    · simp only [retryLoop, hsup] at h
      split at h <;> simp at h

theorem retryLoop_cancelled_failure {V E : Type} (sup : Nat → Except E V) (b : Option Backoff)
    (d : Int) (hk : Bool) (cancel : Nat → Bool) :
    ∀ (a r start : Nat), a ≤ r →
      (∀ i, i < a → (∃ e, sup (start + i) = Except.error e) ∧
        cancel (2 * (start + i) + 1) = false) →
      (∃ e, sup (start + a) = Except.error e) →
      cancel (2 * (start + a) + 1) = true →
      (retryLoop sup b d hk cancel start r).outcome = Except.ok none := by
  intro a
  induction a with
  | zero =>
    intro r start _ _ hfa hc
    have hc2 : cancel (2 * start + 1) = true := by simpa using hc
    obtain ⟨e, he⟩ : ∃ e, sup start = Except.error e := by simpa using hfa
    cases r <;> simp [retryLoop, he, hc2]
  | succ a ih =>
    intro r start har hprev hfa hc
    rcases hprev 0 (Nat.succ_pos a) with ⟨⟨e, he0⟩, hcf0⟩
    have he : sup start = Except.error e := by simpa using he0
    have hcf : cancel (2 * start + 1) = false := by simpa using hcf0
    cases r with
    | zero => omega
    | succ rp =>
      have hprev2 : ∀ i, i < a → (∃ e2, sup (start + 1 + i) = Except.error e2) ∧
          cancel (2 * (start + 1 + i) + 1) = false := by
        intro i hi
        have := hprev (i + 1) (by omega)
        rwa [show start + (i + 1) = start + 1 + i by omega] at this
      have hfa2 : ∃ e2, sup (start + 1 + a) = Except.error e2 := by
        rwa [show start + (a + 1) = start + 1 + a by omega] at hfa
      have hc2 : cancel (2 * (start + 1 + a) + 1) = true := by
        rwa [show start + (a + 1) = start + 1 + a by omega] at hc
      have := ih rp (start + 1) (by omega) hprev2 hfa2 hc2
      simp [retryLoop, he, hcf, this]

/-- C10.  When retry is enabled and the session has been cancelled, a
supplier attempt that fails after the cancellation makes the pending
retry promise resolve with `undefined` (`Except.ok none`) rather than
reject; and after cancellation no error is ever propagated as the
promise's failure: a rejected outcome implies the cancellation flag still
read false at the final failure's handler, so under a monotone schedule
any cancellation read during the run rules out rejection. -/
theorem claim10_theorem {V E : Type} (sup : Nat → Except E V) (count : Nat)
    (b : Option Backoff) (d : Int) (hk : Bool) (cancel : Nat → Bool) :
    (∀ a, a ≤ count →
      (∀ i, i < a → (∃ e, sup i = Except.error e) ∧ cancel (2 * i + 1) = false) →
      (∃ e, sup a = Except.error e) → cancel (2 * a + 1) = true →
      (runRetry sup count b d hk cancel).outcome = Except.ok none) ∧
    (∀ e, (runRetry sup count b d hk cancel).outcome = Except.error e →
      cancel (2 * count + 1) = false) ∧
    (MonoCancel cancel → ∀ n, n ≤ 2 * count + 1 → cancel n = true →
      ∀ e, (runRetry sup count b d hk cancel).outcome ≠ Except.error e) := by
  refine ⟨?_, ?_, ?_⟩
  · intro a ha hprev hfa hc
    have hprev0 : ∀ i, i < a → (∃ e, sup (0 + i) = Except.error e) ∧
        cancel (2 * (0 + i) + 1) = false := by
      intro i hi
      rw [Nat.zero_add]
      exact hprev i hi
    have hfa0 : ∃ e, sup (0 + a) = Except.error e := by rw [Nat.zero_add]; exact hfa
    have hc0 : cancel (2 * (0 + a) + 1) = true := by rw [Nat.zero_add]; exact hc
    exact retryLoop_cancelled_failure sup b d hk cancel a count 0 ha hprev0 hfa0 hc0
  · intro e h
    have := retryLoop_error_last_read sup b d hk cancel e count 0 h
    rwa [Nat.zero_add] at this
  · intro hmono n hn hc e h
    have hlast := retryLoop_error_last_read sup b d hk cancel e count 0 h
    rw [Nat.zero_add] at hlast
    have := hmono n (2 * count + 1) hn hc
    rw [this] at hlast
    simp at hlast

/-- Witness for C10: with a supplier that always fails, retryCount 3, and
cancellation from read index 1 on (cancelled while attempt 0 is in
flight), the run resolves with `undefined` instead of rejecting. -/
theorem claim10_witness :
    (runRetry supAlwaysFail 3 none 0 false cancelFromOne).outcome = Except.ok none := by
  exact (claim10_theorem supAlwaysFail 3 none 0 false cancelFromOne).1 0 (by decide)
    (fun i hi => absurd hi (by omega)) ⟨(), rfl⟩ (by decide)

theorem retryLoop_cancelled_invocations {V E : Type} (sup : Nat → Except E V)
    (b : Option Backoff) (d : Int) (hk : Bool) (cancel : Nat → Bool) :
    ∀ (k r start : Nat), cancel (2 * (start + k) + 1) = true →
      (retryLoop sup b d hk cancel start r).invocations ≤ k + 1 := by
  intro k
  induction k with
  | zero =>
    intro r start hc
    have hc2 : cancel (2 * start + 1) = true := by simpa using hc
    cases r <;> rcases hsup : sup start with err | v <;>
      simp [retryLoop, hsup, hc2] <;> split <;> simp
  | succ k ih =>
    intro r start hc
    have hc2 : cancel (2 * (start + 1 + k) + 1) = true := by
      have : start + 1 + k = start + (k + 1) := by omega
      rw [this]
      exact hc
    cases r with
    | zero =>
      rcases hsup : sup start with err | v <;> simp [retryLoop, hsup] <;> split <;> simp
    | succ rp =>
      have hrest := ih rp (start + 1) hc2
      rcases hsup : sup start with err | v <;> simp [retryLoop, hsup] <;> split <;> simp <;> omega

theorem retryLoop_writes_not_cancelled {V E : Type} (sup : Nat → Except E V)
    (b : Option Backoff) (d : Int) (hk : Bool) (cancel : Nat → Bool) :
    ∀ (r start : Nat) (i : Nat) (v : V),
      (i, v) ∈ (retryLoop sup b d hk cancel start r).cacheWrites →
      cancel (2 * i + 1) = false := by
  intro r
  induction r with
  | zero =>
    intro start i v hw
    rcases hsup : sup start with err | w <;> simp only [retryLoop, hsup] at hw
    · split at hw <;> simp at hw
    · split at hw
      · simp at hw
      · rename_i hnc
        rcases hk with _ | _
        · simp at hw
        · obtain ⟨rfl, rfl⟩ : i = start ∧ v = w := by simpa using hw
          simpa using hnc
  | succ rp ih =>
    intro start i v hw
    rcases hsup : sup start with err | w <;> simp only [retryLoop, hsup] at hw
    · split at hw
      · simp at hw
      · exact ih (start + 1) i v hw
    · split at hw
      · simp at hw
      · rename_i hnc
        rcases hk with _ | _
        · simp at hw
        · obtain ⟨rfl, rfl⟩ : i = start ∧ v = w := by simpa using hw
          simpa using hnc

/-- C3 counterexample.  The claim asserts that for a run with
retryCount = 5 cancelled after attempt 0, the supplier invocation count
stays at 1 even after all remaining scheduled delays elapse.  In the
code the loop checks the cancellation flag only around `setAttempt` and
after an attempt settles — there is no check between the backoff wait
and the next `await resource()`.  With a supplier that always fails and
the flag flipping to true from read index 2 on (i.e. after attempt 0's
failure was handled, while the backoff delay was pending — "after
attempt 0"), attempt 1 still invokes the supplier: the count is 2, not
1. -/
theorem claim3_counterexample :
    (runRetry supAlwaysFail 5 none 0 false cancelFromTwo).invocations = 2 ∧
    (2 : Nat) ≠ 1 := by
  exact ⟨rfl, by decide⟩

/-- C3 amended.  Once a session is cancelled, at most one further
supplier invocation can start (the attempt whose backoff wait was
already pending): with cancellation read true at attempt `a`'s
settlement handler, the total invocation count is at most `a + 1`.
Moreover no further result is emitted as an error — a cancelled run
never rejects — and a cancelled session's in-flight result is never
written to cache: every cache write of a run happened at an attempt
whose settlement-time cancellation read was still false. -/
theorem claim3_amended {V E : Type} (sup : Nat → Except E V) (count : Nat)
    (b : Option Backoff) (d : Int) (hk : Bool) (cancel : Nat → Bool) (a : Nat)
    (hmono : MonoCancel cancel) (ha : a ≤ count) (hc : cancel (2 * a + 1) = true) :
    (runRetry sup count b d hk cancel).invocations ≤ a + 1 ∧
    (∀ e, (runRetry sup count b d hk cancel).outcome ≠ Except.error e) ∧
    (∀ i v, (i, v) ∈ (runRetry sup count b d hk cancel).cacheWrites →
      cancel (2 * i + 1) = false) := by
  refine ⟨?_, ?_, ?_⟩
  · have := retryLoop_cancelled_invocations sup b d hk cancel a count 0
      (by rw [Nat.zero_add]; exact hc)
    exact this
  · intro e h
    have hlast := retryLoop_error_last_read sup b d hk cancel e count 0 h
    rw [Nat.zero_add] at hlast
    have := hmono (2 * a + 1) (2 * count + 1) (by omega) hc
    rw [this] at hlast
    simp at hlast
  · intro i v hw
    exact retryLoop_writes_not_cancelled sup b d hk cancel count 0 i v hw

/-- Witness for C3's amended theorem: cancellation from read index 2
(after attempt 0 failed, during the wait) with retryCount 5 bounds the
invocation count by 2. -/
theorem claim3_witness :
    (runRetry supAlwaysFail 5 none 0 false cancelFromTwo).invocations ≤ 2 := by
  exact (claim3_amended supAlwaysFail 5 none 0 false cancelFromTwo 1
    (fun m n hmn hm => by simp [cancelFromTwo] at *; omega)
    (by decide) (by decide)).1

/-- C4 counterexample.  The claim asserts that for EVERY resolve call
with caching enabled and a valid unexpired entry for the key, the
returned pending value is immediately resolved with the cached value and
the reported attempt count is 0.  At `sessionAfterRetry` — caching
enabled, entry valid — `getPromise` instead returns the tracked
promise (`if (currentPromise) return currentPromise`) and the returned
attempt count is 1, not 0. -/
theorem claim4_counterexample :
    sessionAfterRetry.cacheKey = some ("k") ∧
    sessionAfterRetry.cacheEntry = some { value := 7, expiry := none, isValidM := none } ∧
    entryLikeValid { value := 7, expiry := none, isValidM := (none : Option Bool) } 0 = true ∧
    (getPromiseDef sessionAfterRetry true 0).reportedAttempt ≠ 0 ∧
    (getPromiseDef sessionAfterRetry true 0).promise ≠ PromiseD.cachedResolved 7 := by
  refine ⟨rfl, rfl, rfl, ?_, ?_⟩ <;> decide

/-- C4 amended.  For every resolve call where caching is enabled, a
valid unexpired entry exists for the session's cache key, and no
execution is currently tracked, the returned pending value is
`Promise.resolve(cachedValue)`, the supplier is not invoked, and the
attempt counter is left unchanged by the call — hence 0 for a fresh
session.  (With a tracked execution the same tracked promise is returned
instead, still without invoking the supplier, and the reported attempt
is the tracked run's final attempt index.) -/
theorem claim4_amended {V : Type} (s : SessionState V) (k : String) (e : EntryLike V)
    (now : Nat) (useRetry : Bool) (hk : s.cacheKey = some k) (he : s.cacheEntry = some e)
    (hv : entryLikeValid e now = true) (hp : s.currentPromise = none) :
    getPromiseDef s useRetry now =
      { promise := PromiseD.cachedResolved e.value,
        nextPromise := some (PromiseD.cachedResolved e.value),
        nextEntry := some e, supplierStarted := false, reportedAttempt := s.attempt } := by
  simp [getPromiseDef, hk, he, hv, hp]

/-- Witness for C4's amended theorem: a fresh cache-hit session (no
tracked promise, attempt counter 0) resolves with the cached value,
reports attempt 0 and does not start the supplier. -/
theorem claim4_witness :
    getPromiseDef
      ({ cacheKey := some ("k"),
         cacheEntry := some { value := 7, expiry := none, isValidM := none },
         currentPromise := none, attempt := 0 } : SessionState Nat) true 5 =
      { promise := PromiseD.cachedResolved 7,
        nextPromise := some (PromiseD.cachedResolved 7),
        nextEntry := some { value := 7, expiry := none, isValidM := none },
        supplierStarted := false, reportedAttempt := 0 } := by
  exact claim4_amended _ ("k") { value := 7, expiry := none, isValidM := none } 5 true
    rfl rfl rfl rfl

theorem freeMemory_no_bound {V : Type} (esize : String → CacheEntry V → Nat)
    (s : CacheState V) (k : String) (sz : Nat) (hB : s.maxCacheBytes = none) :
    freeMemory esize s k sz = s := by
  unfold freeMemory
  rw [hB]

theorem setCache_memoryCache_no_bounds {V : Type} (esize : String → CacheEntry V → Nat)
    (s : CacheState V) (k : String) (v : V) (ttl : Option Nat) (persist : Bool) (now : Nat)
    (hval : isValidCacheKey k = true) (hE : s.maxCacheEntries = none)
    (hB : s.maxCacheBytes = none) :
    (setCache esize s k v ttl persist now).memoryCache =
      mapSet s.memoryCache k
        { value := v, expiry := if isValidTTL ttl then some (now + ttl.getD 0) else none } := by
  simp only [setCache, hval, if_true]
  rw [freeMemory_no_bound esize s k _ hB]
  unfold setMemoryStorage
  simp only [hval, if_true]
  by_cases httl : isValidTTL ttl = true <;> cases persist <;>
    cases hls : s.lsAvailable <;> simp [httl, hE, hls, hval, lsSet]

theorem setCache_getCache_no_bounds {V : Type} (esize : String → CacheEntry V → Nat)
    (s : CacheState V) (k : String) (v : V) (ttl : Option Nat) (persist : Bool)
    (now now2 : Nat) (hval : isValidCacheKey k = true) (hE : s.maxCacheEntries = none)
    (hB : s.maxCacheBytes = none) :
    (getCache esize (setCache esize s k v ttl persist now) k now2).1 =
      (if isExpiredAt (if isValidTTL ttl then some (now + ttl.getD 0) else none) now2 then
        none
       else
        some { value := v,
               expiry := if isValidTTL ttl then some (now + ttl.getD 0) else none }) := by
  have hmc := setCache_memoryCache_no_bounds esize s k v ttl persist now hval hE hB
  simp only [getCache, hval, if_true]
  simp only [getFromMemoryStorage, hmc, mapGet_mapSet_self]
  split <;> split <;> rfl

/-- C1 counterexample.  The claim says `getCache` returns absent once the
elapsed time is ≥ T.  Set "k" ↦ 7 with ttl 5 at time 100 (expiry 105);
at time 105 the elapsed time is exactly 5 = T, yet the code's expiry test
is strict (`Date.now() > entry.expiry`), so the entry is still
returned, not absent. -/
theorem claim1_counterexample :
    100 + 5 ≤ 105 ∧
    (getCache eszNat (setCache eszNat (emptyState Nat none none true) ("k") 7 (some 5) false 100)
      "k" 105).1 = some { value := 7, expiry := some 105 } := by
  exact ⟨by decide, rfl⟩

/-- C1 amended.  For an entry stored with positive ttl T at time `now`
(no size bounds configured, valid key), `getCache` returns the entry
with the stored value while the elapsed time is ≤ T (strictly less than
or equal, i.e. up to and including the expiry instant), and returns
absent once the elapsed time is strictly greater than T. -/
theorem claim1_theorem {V : Type} (esize : String → CacheEntry V → Nat)
    (s : CacheState V) (k : String) (v : V) (T : Nat) (persist : Bool) (now now2 : Nat)
    (hval : isValidCacheKey k = true) (hT : 0 < T) (hE : s.maxCacheEntries = none)
    (hB : s.maxCacheBytes = none) :
    (now2 ≤ now + T →
      (getCache esize (setCache esize s k v (some T) persist now) k now2).1 =
        some { value := v, expiry := some (now + T) }) ∧
    (now + T < now2 →
      (getCache esize (setCache esize s k v (some T) persist now) k now2).1 = none) := by
  have hbase := setCache_getCache_no_bounds esize s k v (some T) persist now now2 hval hE hB
  have httl : isValidTTL (some T) = true := by simpa [isValidTTL] using hT
  rw [httl] at hbase
  simp only [if_true, Option.getD] at hbase
  constructor
  · intro hle
    have hexp : isExpiredAt (some (now + T)) now2 = false := by
      simp [isExpiredAt]
      omega
    rw [hbase, hexp]
    rfl
  · intro hgt
    have hexp : isExpiredAt (some (now + T)) now2 = true := by
      simp [isExpiredAt]
      omega
    rw [hbase, hexp]
    rfl

/-- Witness for C1's amended theorem: set at 100 with ttl 5; reading at
103 (elapsed 3 ≤ 5) returns the entry, reading at 106 (elapsed 6 > 5)
returns absent. -/
theorem claim1_witness :
    (getCache eszNat (setCache eszNat (emptyState Nat none none true) ("k") 7 (some 5) false 100)
      "k" 103).1 = some { value := 7, expiry := some 105 } ∧
    (getCache eszNat (setCache eszNat (emptyState Nat none none true) ("k") 7 (some 5) false 100)
      "k" 106).1 = none := by
  constructor
  · exact (claim1_theorem eszNat (emptyState Nat none none true) ("k") 7 5 false 100 103
      (by decide) (by decide) rfl rfl).1 (by decide)
  · exact (claim1_theorem eszNat (emptyState Nat none none true) ("k") 7 5 false 100 106
      (by decide) (by decide) rfl rfl).2 (by decide)

/-- C7.  Round-trip: for every valid key K and value V, `setCache(K, V)`
followed by `getCache(K)`, with no size bounds configured (so no
eviction) and the stored entry not expired at read time, returns an
entry whose value equals V. -/
theorem claim7_theorem {V : Type} (esize : String → CacheEntry V → Nat)
    (s : CacheState V) (k : String) (v : V) (ttl : Option Nat) (persist : Bool)
    (now now2 : Nat) (hval : isValidCacheKey k = true) (hE : s.maxCacheEntries = none)
    (hB : s.maxCacheBytes = none)
    (hfresh : isExpiredAt (if isValidTTL ttl then some (now + ttl.getD 0) else none) now2
      = false) :
    (getCache esize (setCache esize s k v ttl persist now) k now2).1 =
      some { value := v,
             expiry := if isValidTTL ttl then some (now + ttl.getD 0) else none } := by
  rw [setCache_getCache_no_bounds esize s k v ttl persist now now2 hval hE hB, hfresh]
  rfl

/-- Witness for C7: a value stored without ttl is returned unchanged by
an immediate (or arbitrarily late) read. -/
theorem claim7_witness :
    (getCache eszNat (setCache eszNat (emptyState Nat none none true) ("a") 3 none false 10)
      "a" 999).1 = some { value := 3, expiry := none } := by
  exact claim7_theorem eszNat (emptyState Nat none none true) ("a") 3 none false 10 999
    (by decide) rfl rfl (by decide)

theorem sameKeys_congr {V : Type} (s s2 : CacheState V)
    (hmc : s2.memoryCache = s.memoryCache) (hao : s2.accessOrder = s.accessOrder)
    (h : SameKeys s) : SameKeys s2 := by
  intro a
  rw [hmc, hao]
  exact h a

theorem sameKeys_set_both {V : Type} (s s2 : CacheState V) (k : String)
    (e : CacheEntry V) (t : Nat) (hmc : s2.memoryCache = mapSet s.memoryCache k e)
    (hao : s2.accessOrder = mapSet s.accessOrder k t) (h : SameKeys s) : SameKeys s2 := by
  intro a
  rw [hmc, hao, mem_mapKeys_mapSet, mem_mapKeys_mapSet]
  exact or_congr Iff.rfl (h a)

theorem sameKeys_delete_both {V : Type} (s s2 : CacheState V) (k : String)
    (hmc : s2.memoryCache = mapDelete s.memoryCache k)
    (hao : s2.accessOrder = mapDelete s.accessOrder k) (h : SameKeys s) : SameKeys s2 := by
  intro a
  rw [hmc, hao, mem_mapKeys_mapDelete, mem_mapKeys_mapDelete]
  exact and_congr (h a) Iff.rfl

theorem sameKeys_touch {V : Type} (s s2 : CacheState V) (k : String) (t : Nat)
    (hmc : s2.memoryCache = s.memoryCache) (hao : s2.accessOrder = mapSet s.accessOrder k t)
    (hk : k ∈ mapKeys s.memoryCache) (h : SameKeys s) : SameKeys s2 := by
  intro a
  rw [hmc, hao, mem_mapKeys_mapSet]
  constructor
  · intro ha
    exact Or.inr ((h a).mp ha)
  · rintro (rfl | ha)
    · exact hk
    · exact (h a).mpr ha

theorem sameKeys_evictOne {V : Type} (esize : String → CacheEntry V → Nat)
    (s : CacheState V) (k : String) (h : SameKeys s) : SameKeys (evictOne esize s k) :=
  sameKeys_delete_both s (evictOne esize s k) k (evictOne_memoryCache esize s k)
    (evictOne_accessOrder esize s k) h

theorem sameKeys_evictEntriesLoop {V : Type} (esize : String → CacheEntry V → Nat)
    (M : Nat) : ∀ (fuel : Nat) (s : CacheState V), SameKeys s →
      SameKeys (evictEntriesLoop esize M s fuel) := by
  intro fuel
  induction fuel with
  | zero => intro s h; exact h
  | succ f ih =>
    intro s h
    simp only [evictEntriesLoop]
    split
    · split
      · exact h
      · exact ih _ (sameKeys_evictOne esize s _ h)
    · exact h

theorem sameKeys_freeBytesLoop {V : Type} (esize : String → CacheEntry V → Nat)
    (MB newSize : Int) : ∀ (fuel : Nat) (s : CacheState V), SameKeys s →
      SameKeys (freeBytesLoop esize MB newSize s fuel) := by
  intro fuel
  induction fuel with
  | zero => intro s h; exact h
  | succ f ih =>
    intro s h
    simp only [freeBytesLoop]
    split
    · split
      · exact h
      · exact ih _ (sameKeys_evictOne esize s _ h)
    · exact h

theorem sameKeys_freeMemory {V : Type} (esize : String → CacheEntry V → Nat)
    (s : CacheState V) (k : String) (sz : Nat) (h : SameKeys s) :
    SameKeys (freeMemory esize s k sz) := by
  unfold freeMemory
  cases hB : s.maxCacheBytes with
  | none => exact h
  | some MB =>
    apply sameKeys_freeBytesLoop
    cases hg : mapGet s.memoryCache k with
    | some e => exact sameKeys_congr s _ rfl rfl h
    | none => exact h

theorem sameKeys_setMemoryStorage {V : Type} (esize : String → CacheEntry V → Nat)
    (s : CacheState V) (k : String) (e : CacheEntry V) (sz : Nat) (ttl : Option Nat)
    (persist : Bool) (now : Nat) (h : SameKeys s) :
    SameKeys (setMemoryStorage esize s k e sz ttl persist now) := by
  unfold setMemoryStorage
  by_cases hval : isValidCacheKey k = true
  · simp only [hval, if_true]
    split
    · refine sameKeys_set_both s _ k e now ?_ ?_ h <;>
        cases persist <;> by_cases httl : isValidTTL ttl = true <;> simp [httl]
    · refine sameKeys_evictEntriesLoop esize _ _ _
        (sameKeys_set_both s _ k e now ?_ ?_ h) <;>
        cases persist <;> by_cases httl : isValidTTL ttl = true <;> simp [httl]
  · simp only [hval]
    simpa using h

theorem sameKeys_setCache {V : Type} (esize : String → CacheEntry V → Nat)
    (s : CacheState V) (k : String) (v : V) (ttl : Option Nat) (persist : Bool)
    (now : Nat) (h : SameKeys s) : SameKeys (setCache esize s k v ttl persist now) := by
  unfold setCache
  by_cases hval : isValidCacheKey k = true
  · simp only [hval, if_true]
    exact sameKeys_setMemoryStorage esize _ k _ _ ttl persist now
      (sameKeys_freeMemory esize s k _ h)
  · simp only [hval]
    simpa using h

theorem sameKeys_getFromMemoryStorage {V : Type} (esize : String → CacheEntry V → Nat)
    (s : CacheState V) (k : String) (now : Nat) (h : SameKeys s) :
    SameKeys (getFromMemoryStorage esize s k now).2 := by
  unfold getFromMemoryStorage
  cases hg : mapGet s.memoryCache k with
  | some e =>
    simp only [hg]
    split
    · exact sameKeys_evictOne esize s k h
    · exact sameKeys_touch s _ k now rfl rfl (mem_mapKeys_of_mapGet _ _ _ hg) h
  | none =>
    simp only [hg]
    cases hls : lsGetParsed s k with
    | some e =>
      simp only [hls]
      split
      · exact sameKeys_congr s _ (by simp) (by simp) h
      · exact sameKeys_set_both (freeMemory esize s k (esize k e)) _ k e now rfl rfl
          (sameKeys_freeMemory esize s k _ h)
    | none => exact h

theorem sameKeys_deleteCache {V : Type} (esize : String → CacheEntry V → Nat)
    (s : CacheState V) (k : String) (h : SameKeys s) :
    SameKeys (deleteCache esize s k) := by
  unfold deleteCache
  split
  · exact sameKeys_evictOne esize s k h
  · exact h

theorem sameKeys_cleanupMemorySweep {V : Type} (esize : String → CacheEntry V → Nat)
    (now : Nat) : ∀ (l : List (String × Nat)) (s : CacheState V), SameKeys s →
      SameKeys (cleanupMemorySweep esize l s now) := by
  intro l
  induction l with
  | nil => intro s h; exact h
  | cons p rest ih =>
    intro s h
    rcases p with ⟨k, ex⟩
    simp only [cleanupMemorySweep]
    apply ih
    split
    · exact sameKeys_evictOne esize s k h
    · exact h

theorem cleanupLsSweep_maps {V : Type} (now : Nat) :
    ∀ (l : List (String × CacheEntry V)) (s : CacheState V),
      (cleanupLsSweep l s now).memoryCache = s.memoryCache ∧
      (cleanupLsSweep l s now).accessOrder = s.accessOrder := by
  intro l
  induction l with
  | nil => intro s; exact ⟨rfl, rfl⟩
  | cons p rest ih =>
    intro s
    rcases p with ⟨pk, e⟩
    simp only [cleanupLsSweep]
    constructor
    · rw [(ih _).1]
      split
      · split
        · simp
        · split <;> simp
      · rfl
    · rw [(ih _).2]
      split
      · split
        · simp
        · split <;> simp
      · rfl

theorem sameKeys_cleanupCache {V : Type} (esize : String → CacheEntry V → Nat)
    (s : CacheState V) (now : Nat) (h : SameKeys s) :
    SameKeys (cleanupCache esize s now) := by
  unfold cleanupCache
  split
  · have hsweep := sameKeys_cleanupMemorySweep esize now s.memoryExpirationMap s h
    rcases cleanupLsSweep_maps now
      (cleanupMemorySweep esize s.memoryExpirationMap s now).localStore
      (cleanupMemorySweep esize s.memoryExpirationMap s now) with ⟨h1, h2⟩
    exact sameKeys_congr _ _ h1 h2 hsweep
  · exact sameKeys_cleanupMemorySweep esize now s.memoryExpirationMap s h

theorem sameKeys_clearCache {V : Type} (s : CacheState V) (clearLS : Bool) :
    SameKeys (clearCache s clearLS) := by
  intro a
  simp [clearCache, mapKeys]

/-- C9.  With no custom storage installed, every public cache operation
(setCache, getCache, deleteCache, cleanupCache, clearCache) preserves
the invariant that the access-order map contains exactly the same set of
keys as the in-memory entry map. -/
theorem claim9_theorem {V : Type} (esize : String → CacheEntry V → Nat)
    (s : CacheState V) (k : String) (v : V) (ttl : Option Nat) (persist : Bool)
    (now kget nowget : Nat) (kdel : String) (nowclean : Nat) (clearLS : Bool)
    (kg : String) (h : SameKeys s) :
    SameKeys (setCache esize s k v ttl persist now) ∧
    SameKeys (getCache esize s kg nowget).2 ∧
    SameKeys (deleteCache esize s kdel) ∧
    SameKeys (cleanupCache esize s nowclean) ∧
    SameKeys (clearCache s clearLS) := by
  refine ⟨sameKeys_setCache esize s k v ttl persist now h, ?_,
    sameKeys_deleteCache esize s kdel h, sameKeys_cleanupCache esize s nowclean h,
    sameKeys_clearCache s clearLS⟩
  unfold getCache
  split
  · exact sameKeys_getFromMemoryStorage esize s kg nowget h
  · exact h

/-- Witness for C9: the invariant holds of the empty state and is
preserved by each of the five operations applied to it. -/
theorem claim9_witness :
    SameKeys (setCache eszNat (emptyState Nat none none true) ("k") 7 none false 0) ∧
    SameKeys (getCache eszNat (emptyState Nat none none true) ("g") 1).2 ∧
    SameKeys (deleteCache eszNat (emptyState Nat none none true) ("d")) ∧
    SameKeys (cleanupCache eszNat (emptyState Nat none none true) 2) ∧
    SameKeys (clearCache (emptyState Nat none none true) true) := by
  exact claim9_theorem eszNat (emptyState Nat none none true) ("k") 7 none false 0 0 1 ("d") 2
    true ("g") (fun a => by simp [emptyState, mapKeys])

theorem valid_key_ne_empty (k : String) (h : isValidCacheKey k = true) : k ≠ "" := by
  unfold isValidCacheKey at h
  intro hk
  rw [hk] at h
  simp at h

theorem mapSet_append_of_not_any {α : Type} (l : AssocL α) (k : String) (v : α)
    (h : l.any (fun p => p.1 == k) = false) : mapSet l k v = l ++ [(k, v)] := by
  simp [mapSet, h]

theorem mapDelete_cons_head {α : Type} (k : String) (x : α) (rest : AssocL α)
    (h : ∀ p ∈ rest, p.1 ≠ k) : mapDelete ((k, x) :: rest) k = rest := by
  unfold mapDelete
  rw [List.filter_cons]
  simp only [bne_self_eq_false, Bool.false_eq_true, if_false]
  exact mapDelete_of_not_mem rest k h

theorem setCache_no_evict {V : Type} (esize : String → CacheEntry V → Nat)
    (S : CacheState V) (N : Nat) (k : String) (v : V) (t : Nat)
    (hvalk : isValidCacheKey k = true) (hmb : S.maxCacheBytes = none)
    (hme : S.maxCacheEntries = some N)
    (hfresh : S.memoryCache.any (fun p => p.1 == k) = false)
    (hfreshao : S.accessOrder.any (fun p => p.1 == k) = false)
    (hlen : ¬ S.memoryCache.length + 1 > N) :
    setCache esize S k v none false t =
      { memoryCache := S.memoryCache ++ [(k, { value := v, expiry := none })],
        accessOrder := S.accessOrder ++ [(k, t)],
        memoryExpirationMap := S.memoryExpirationMap,
        localStore := S.localStore,
        currentCacheBytes :=
          S.currentCacheBytes + (esize k { value := v, expiry := none } : Int),
        maxCacheEntries := S.maxCacheEntries, maxCacheBytes := S.maxCacheBytes,
        lsAvailable := S.lsAvailable } := by
  unfold setCache
  simp only [hvalk, if_true, isValidTTL, if_false]
  rw [freeMemory_no_bound esize S k _ hmb]
  unfold setMemoryStorage
  simp only [hvalk, if_true, isValidTTL, Bool.false_eq_true, if_false]
  rw [mapSet_append_of_not_any S.memoryCache k _ hfresh,
    mapSet_append_of_not_any S.accessOrder k t hfreshao]
  simp only [hme]
  simp only [evictEntriesLoop, List.length_append, List.length_singleton]
  rw [if_neg (by simpa using hlen)]

theorem insertSeq_shape {V : Type} (esize : String → CacheEntry V → Nat) (N : Nat)
    (kf : Nat → String) (vf : Nat → V) (tf : Nat → Nat)
    (hval : ∀ i, i < N + 1 → isValidCacheKey (kf i) = true)
    (hinj : ∀ i, i < N + 1 → ∀ j, j < N + 1 → kf i = kf j → i = j) :
    ∀ m, m ≤ N →
      (insertSeq esize kf vf tf (emptyState V (some N) none true) m).memoryCache
          = (List.range m).map (fun i => (kf i, { value := vf i, expiry := none })) ∧
      (insertSeq esize kf vf tf (emptyState V (some N) none true) m).accessOrder
          = (List.range m).map (fun i => (kf i, tf i)) ∧
      (insertSeq esize kf vf tf (emptyState V (some N) none true) m).memoryExpirationMap
          = [] ∧
      (insertSeq esize kf vf tf (emptyState V (some N) none true) m).localStore = [] ∧
      (insertSeq esize kf vf tf (emptyState V (some N) none true) m).maxCacheEntries
          = some N ∧
      (insertSeq esize kf vf tf (emptyState V (some N) none true) m).maxCacheBytes
          = none ∧
      (insertSeq esize kf vf tf (emptyState V (some N) none true) m).lsAvailable = true := by
  intro m
  induction m with
  | zero =>
    intro _
    exact ⟨rfl, rfl, rfl, rfl, rfl, rfl, rfl⟩
  | succ m ih =>
    intro hm
    rcases ih (by omega) with ⟨hmc, hao, hexp, hls, hme, hmb, hlsa⟩
    have hvalm : isValidCacheKey (kf m) = true := hval m (by omega)
    have hfresh :
        (insertSeq esize kf vf tf (emptyState V (some N) none true) m).memoryCache.any
          (fun p => p.1 == kf m) = false := by
      rw [hmc]
      rw [List.any_eq_false]
      rintro p hp
      rcases List.mem_map.mp hp with ⟨i, hi, rfl⟩
      simp only [beq_iff_eq]
      intro hki
      have := hinj i (by have := List.mem_range.mp hi; omega) m (by omega) hki
      have hilt := List.mem_range.mp hi
      omega
    have hfreshao :
        (insertSeq esize kf vf tf (emptyState V (some N) none true) m).accessOrder.any
          (fun p => p.1 == kf m) = false := by
      rw [hao]
      rw [List.any_eq_false]
      rintro p hp
      rcases List.mem_map.mp hp with ⟨i, hi, rfl⟩
      simp only [beq_iff_eq]
      intro hki
      have := hinj i (by have := List.mem_range.mp hi; omega) m (by omega) hki
      have hilt := List.mem_range.mp hi
      omega
    have hlen :
        ¬ (insertSeq esize kf vf tf (emptyState V (some N) none true) m).memoryCache.length
          + 1 > N := by
      rw [hmc]
      simp only [List.length_map, List.length_range]
      omega
    have hstep := setCache_no_evict esize
      (insertSeq esize kf vf tf (emptyState V (some N) none true) m) N (kf m) (vf m)
      (tf m) hvalm hmb hme hfresh hfreshao hlen
    have hunf : insertSeq esize kf vf tf (emptyState V (some N) none true) (m + 1)
        = setCache esize (insertSeq esize kf vf tf (emptyState V (some N) none true) m)
            (kf m) (vf m) none false (tf m) := rfl
    rw [hunf, hstep]
    refine ⟨?_, ?_, hexp, hls, hme, hmb, hlsa⟩
    · rw [hmc, List.range_succ, List.map_append]
      rfl
    · rw [hao, List.range_succ, List.map_append]
      rfl

theorem setCache_to_loop {V : Type} (esize : String → CacheEntry V → Nat)
    (S : CacheState V) (N : Nat) (k : String) (v : V) (t : Nat)
    (hvalk : isValidCacheKey k = true) (hmb : S.maxCacheBytes = none)
    (hme : S.maxCacheEntries = some N)
    (hfresh : S.memoryCache.any (fun p => p.1 == k) = false)
    (hfreshao : S.accessOrder.any (fun p => p.1 == k) = false) :
    setCache esize S k v none false t =
      evictEntriesLoop esize N
        { memoryCache := S.memoryCache ++ [(k, { value := v, expiry := none })],
          accessOrder := S.accessOrder ++ [(k, t)],
          memoryExpirationMap := S.memoryExpirationMap,
          localStore := S.localStore,
          currentCacheBytes :=
            S.currentCacheBytes + (esize k { value := v, expiry := none } : Int),
          maxCacheEntries := S.maxCacheEntries, maxCacheBytes := S.maxCacheBytes,
          lsAvailable := S.lsAvailable }
        ((S.accessOrder ++ [(k, t)]).length + 1) := by
  unfold setCache
  simp only [hvalk, if_true, isValidTTL, Bool.false_eq_true, if_false]
  rw [freeMemory_no_bound esize S k _ hmb]
  unfold setMemoryStorage
  simp only [hvalk, if_true, isValidTTL, Bool.false_eq_true, if_false]
  rw [mapSet_append_of_not_any S.memoryCache k _ hfresh,
    mapSet_append_of_not_any S.accessOrder k t hfreshao]
  simp only [hme]

/-- C6.  With MAX_ENTRIES = N (N > 0) configured on an empty cache (no
byte bound), inserting N+1 distinct valid keys at strictly increasing
access times leaves exactly the least-recently-accessed key (the first
inserted, kf 0) absent and the other N keys present: the memory map's
keys are exactly kf 1 ... kf N.  Moreover eviction only runs when a
configured bound is exceeded: with no bounds configured, setCache never
removes an existing key. -/
theorem claim6_theorem {V : Type} (esize : String → CacheEntry V → Nat) (N : Nat)
    (hN : 0 < N) (kf : Nat → String) (vf : Nat → V) (tf : Nat → Nat)
    (hval : ∀ i, i < N + 1 → isValidCacheKey (kf i) = true)
    (hinj : ∀ i, i < N + 1 → ∀ j, j < N + 1 → kf i = kf j → i = j)
    (hmono : ∀ i j, i < j → j < N + 1 → tf i < tf j) :
    mapKeys (insertSeq esize kf vf tf (emptyState V (some N) none true) (N + 1)).memoryCache
        = (List.range N).map (fun i => kf (i + 1)) ∧
    kf 0 ∉ mapKeys
      (insertSeq esize kf vf tf (emptyState V (some N) none true) (N + 1)).memoryCache ∧
    (∀ i, 1 ≤ i → i ≤ N → kf i ∈ mapKeys
      (insertSeq esize kf vf tf (emptyState V (some N) none true) (N + 1)).memoryCache) ∧
    (∀ (s2 : CacheState V) (k2 : String) (v2 : V) (ttl2 : Option Nat) (p2 : Bool)
      (t2 : Nat), s2.maxCacheEntries = none → s2.maxCacheBytes = none →
      ∀ a ∈ mapKeys s2.memoryCache,
        a ∈ mapKeys (setCache esize s2 k2 v2 ttl2 p2 t2).memoryCache) := by
  rcases insertSeq_shape esize N kf vf tf hval hinj N (le_refl N) with
    ⟨hmc, hao, hexp, hls, hme, hmb, hlsa⟩
  have hvalN : isValidCacheKey (kf N) = true := hval N (by omega)
  have hfresh :
      (insertSeq esize kf vf tf (emptyState V (some N) none true) N).memoryCache.any
        (fun p => p.1 == kf N) = false := by
    rw [hmc, List.any_eq_false]
    rintro p hp
    rcases List.mem_map.mp hp with ⟨i, hi, rfl⟩
    simp only [beq_iff_eq]
    intro hki
    have hilt := List.mem_range.mp hi
    have := hinj i (by omega) N (by omega) hki
    omega
  have hfreshao :
      (insertSeq esize kf vf tf (emptyState V (some N) none true) N).accessOrder.any
        (fun p => p.1 == kf N) = false := by
    rw [hao, List.any_eq_false]
    rintro p hp
    rcases List.mem_map.mp hp with ⟨i, hi, rfl⟩
    simp only [beq_iff_eq]
    intro hki
    have hilt := List.mem_range.mp hi
    have := hinj i (by omega) N (by omega) hki
    omega
  have hunf : insertSeq esize kf vf tf (emptyState V (some N) none true) (N + 1) =
      setCache esize (insertSeq esize kf vf tf (emptyState V (some N) none true) N)
        (kf N) (vf N) none false (tf N) := rfl
  have hstep := setCache_to_loop esize
    (insertSeq esize kf vf tf (emptyState V (some N) none true) N) N (kf N) (vf N)
    (tf N) hvalN hmb hme hfresh hfreshao
  have hS3mc :
      (insertSeq esize kf vf tf (emptyState V (some N) none true) N).memoryCache
          ++ [(kf N, { value := vf N, expiry := none })]
        = (List.range (N + 1)).map
            (fun i => (kf i, ({ value := vf i, expiry := none } : CacheEntry V))) := by
    rw [hmc, List.range_succ, List.map_append]
    rfl
  have hS3ao :
      (insertSeq esize kf vf tf (emptyState V (some N) none true) N).accessOrder
          ++ [(kf N, tf N)]
        = (List.range (N + 1)).map (fun i => (kf i, tf i)) := by
    rw [hao, List.range_succ, List.map_append]
    rfl
  have hMCcons :
      (List.range (N + 1)).map
          (fun i => (kf i, ({ value := vf i, expiry := none } : CacheEntry V)))
        = (kf 0, ({ value := vf 0, expiry := none } : CacheEntry V)) ::
            (List.range N).map
              (fun i => (kf (i + 1), ({ value := vf (i + 1), expiry := none } : CacheEntry V))) := by
    rw [List.range_succ_eq_map, List.map_cons, List.map_map]
    rfl
  have hAOcons :
      (List.range (N + 1)).map (fun i => (kf i, tf i))
        = (kf 0, tf 0) :: (List.range N).map (fun i => (kf (i + 1), tf (i + 1))) := by
    rw [List.range_succ_eq_map, List.map_cons, List.map_map]
    rfl
  have hold2 : getOldestCacheKey ((List.range (N + 1)).map (fun i => (kf i, tf i)))
      = some (kf 0) := by
    rw [hAOcons]
    apply getOldestCacheKey_head
    · exact valid_key_ne_empty _ (hval 0 (by omega))
    · rintro p hp
      rcases List.mem_map.mp hp with ⟨i, hi, rfl⟩
      have hilt := List.mem_range.mp hi
      have := hmono 0 (i + 1) (by omega) (by omega)
      simp only []
      omega
  have hdel :
      mapDelete
          ((List.range (N + 1)).map
            (fun i => (kf i, ({ value := vf i, expiry := none } : CacheEntry V))))
          (kf 0)
        = (List.range N).map
            (fun i => (kf (i + 1), ({ value := vf (i + 1), expiry := none } : CacheEntry V))) := by
    rw [hMCcons]
    apply mapDelete_cons_head
    rintro p hp
    rcases List.mem_map.mp hp with ⟨i, hi, rfl⟩
    have hilt := List.mem_range.mp hi
    intro hk
    have := hinj (i + 1) (by omega) 0 (by omega) hk
    omega
  have hfuel :
      ((insertSeq esize kf vf tf (emptyState V (some N) none true) N).accessOrder
          ++ [(kf N, tf N)]).length + 1 = N + 1 + 1 := by
    rw [hao]
    simp
  rw [hfuel] at hstep
  have hstep2 : insertSeq esize kf vf tf (emptyState V (some N) none true) (N + 1) =
      evictOne esize
        { memoryCache := (List.range (N + 1)).map
            (fun i => (kf i, ({ value := vf i, expiry := none } : CacheEntry V))),
          accessOrder := (List.range (N + 1)).map (fun i => (kf i, tf i)),
          memoryExpirationMap := [], localStore := [],
          currentCacheBytes :=
            (insertSeq esize kf vf tf (emptyState V (some N) none true) N).currentCacheBytes
              + (esize (kf N) { value := vf N, expiry := none } : Int),
          maxCacheEntries := some N, maxCacheBytes := none, lsAvailable := true }
        (kf 0) := by
    rw [hunf, hstep, hS3mc, hS3ao, hexp, hls, hme, hmb, hlsa]
    have h1 : ((List.range (N + 1)).map
        (fun i => (kf i, ({ value := vf i, expiry := none } : CacheEntry V)))).length
          > N := by
      simp
    have h2 : ¬ (evictOne esize
        { memoryCache := (List.range (N + 1)).map
            (fun i => (kf i, ({ value := vf i, expiry := none } : CacheEntry V))),
          accessOrder := (List.range (N + 1)).map (fun i => (kf i, tf i)),
          memoryExpirationMap := [], localStore := [],
          currentCacheBytes :=
            (insertSeq esize kf vf tf (emptyState V (some N) none true) N).currentCacheBytes
              + (esize (kf N) { value := vf N, expiry := none } : Int),
          maxCacheEntries := some N, maxCacheBytes := none, lsAvailable := true }
        (kf 0)).memoryCache.length > N := by
      rw [evictOne_memoryCache]
      show ¬ (mapDelete ((List.range (N + 1)).map
        (fun i => (kf i, ({ value := vf i, expiry := none } : CacheEntry V)))) (kf 0)).length > N
      rw [hdel]
      simp
    simp only [evictEntriesLoop]
    rw [if_pos h1]
    simp only [hold2]
    rw [if_neg h2]
  have hkeys : mapKeys
      (insertSeq esize kf vf tf (emptyState V (some N) none true) (N + 1)).memoryCache
        = (List.range N).map (fun i => kf (i + 1)) := by
    rw [hstep2, evictOne_memoryCache]
    show mapKeys (mapDelete ((List.range (N + 1)).map
      (fun i => (kf i, ({ value := vf i, expiry := none } : CacheEntry V)))) (kf 0))
        = (List.range N).map (fun i => kf (i + 1))
    rw [hdel]
    unfold mapKeys
    rw [List.map_map]
    rfl
  refine ⟨hkeys, ?_, ?_, ?_⟩
  · rw [hkeys]
    intro hmem
    rcases List.mem_map.mp hmem with ⟨i, hi, hk⟩
    have hilt := List.mem_range.mp hi
    have := hinj (i + 1) (by omega) 0 (by omega) hk
    omega
  · intro i h1i hiN
    rw [hkeys]
    obtain ⟨j, rfl⟩ : ∃ j, i = j + 1 := ⟨i - 1, by omega⟩
    exact List.mem_map.mpr ⟨j, List.mem_range.mpr (by omega), rfl⟩
  · intro s2 k2 v2 ttl2 p2 t2 hE2 hB2 a ha
    by_cases hv2 : isValidCacheKey k2 = true
    · rw [setCache_memoryCache_no_bounds esize s2 k2 v2 ttl2 p2 t2 hv2 hE2 hB2]
      exact (mem_mapKeys_mapSet _ _ _ _).mpr (Or.inr ha)
    · unfold setCache
      simp only [hv2]
      simpa using ha

/-- Witness for C6 at N = 2: inserting "a", "b", "c" (times 0, 1, 2)
into an empty cache bounded to 2 entries leaves exactly the
least-recently-accessed key "a" absent and "b", "c" present. -/
theorem claim6_witness :
    mapKeys (insertSeq eszNat kf3 (fun i => i) (fun i => i)
      (emptyState Nat (some 2) none true) 3).memoryCache = ["b", "c"] ∧
    "a" ∉ mapKeys (insertSeq eszNat kf3 (fun i => i) (fun i => i)
      (emptyState Nat (some 2) none true) 3).memoryCache := by
  have h := claim6_theorem eszNat 2 (by decide) kf3 (fun i => i) (fun i => i)
    (by decide) (by decide) (fun i j hij hj => by
      simp only []
      omega)
  exact ⟨by rw [h.1]; rfl, h.2.1⟩

/-- Fuel sufficiency: any fuel exceeding the access-order size computes
the same result, so calling the loop with `accessOrder.length + 1` fully
simulates the unbounded `while` loop of the source (every non-breaking
iteration deletes one existing access-order key). -/
theorem evictEntriesLoop_fuel_eq {V : Type} (esize : String → CacheEntry V → Nat)
    (M : Nat) : ∀ (f : Nat) (s : CacheState V) (g : Nat),
      s.accessOrder.length < f → s.accessOrder.length < g →
      evictEntriesLoop esize M s f = evictEntriesLoop esize M s g := by
  intro f
  induction f with
  | zero => intro s g hf _; omega
  | succ f2 ih =>
    intro s g hf hg
    cases g with
    | zero => omega
    | succ g2 =>
      simp only [evictEntriesLoop]
      by_cases hc : s.memoryCache.length > M
      · simp only [hc, if_true]
        cases hk : getOldestCacheKey s.accessOrder with
        | none => rfl
        | some k =>
          have hmem := getOldestCacheKey_mem s.accessOrder k hk
          have hlt := mapDelete_length_lt s.accessOrder k hmem
          apply ih
          · rw [evictOne_accessOrder]
            omega
          · rw [evictOne_accessOrder]
            omega
      · simp only [hc, if_false]

/-- Fuel sufficiency for the byte-bound eviction loop, as for
`evictEntriesLoop`. -/
theorem freeBytesLoop_fuel_eq {V : Type} (esize : String → CacheEntry V → Nat)
    (MB newSize : Int) : ∀ (f : Nat) (s : CacheState V) (g : Nat),
      s.accessOrder.length < f → s.accessOrder.length < g →
      freeBytesLoop esize MB newSize s f = freeBytesLoop esize MB newSize s g := by
  intro f
  induction f with
  | zero => intro s g hf _; omega
  | succ f2 ih =>
    intro s g hf hg
    cases g with
    | zero => omega
    | succ g2 =>
      simp only [freeBytesLoop]
      by_cases hc : s.currentCacheBytes + newSize > MB ∧ s.memoryCache.length > 0
      · simp only [hc, if_true]
        cases hk : getOldestCacheKey s.accessOrder with
        | none => rfl
        | some k =>
          have hmem := getOldestCacheKey_mem s.accessOrder k hk
          have hlt := mapDelete_length_lt s.accessOrder k hmem
          apply ih
          · rw [evictOne_accessOrder]
            omega
          · rw [evictOne_accessOrder]
            omega
      · simp only [hc, if_false]
